import Mathlib

/-!
Verification development for the META-II assembly VM (`meta2.py`).

The Python source is shallowly embedded: text is modelled as `List Char`
(Python `str` slicing is per-character), Python `int` as `Nat`/`Int`
(Python integers are unbounded, so no modular wrap is needed), the mutable
`VM` dataclass as an immutable structure with explicit state passing, raised
exceptions as explicit result constructors, and the unbounded `while` loop
of `MetaII.run` as a fuel-indexed loop.
-/

namespace Meta2

/-- Python `string.whitespace` (the six ASCII whitespace characters), used by
`VM.skip_ws`, the blank-line test and the label-line test in `assemble`. -/
def isAsciiWs (c : Char) : Bool :=
  c == ' ' || c == '\t' || c == '\n' || c == '\r' ||
  c == Char.ofNat 11 || c == Char.ofNat 12

/-- Python `str.isspace` character set, used by `str.lstrip`/`str.rstrip`/
`str.split` (default separators) inside `assemble`. -/
def pyIsSpace (c : Char) : Bool :=
  isAsciiWs c ||
  c == Char.ofNat 0x1c || c == Char.ofNat 0x1d ||
  c == Char.ofNat 0x1e || c == Char.ofNat 0x1f ||
  c == Char.ofNat 0x85 || c == Char.ofNat 0xa0 ||
  c == Char.ofNat 0x1680 ||
  (0x2000 ≤ c.toNat && c.toNat ≤ 0x200a) ||
  c == Char.ofNat 0x2028 || c == Char.ofNat 0x2029 ||
  c == Char.ofNat 0x202f || c == Char.ofNat 0x205f ||
  c == Char.ofNat 0x3000

/-- The line-break characters recognized by Python `str.splitlines`. -/
def isLineBreak (c : Char) : Bool :=
  c == '\n' || c == '\r' || c == Char.ofNat 11 || c == Char.ofNat 12 ||
  c == Char.ofNat 0x1c || c == Char.ofNat 0x1d || c == Char.ofNat 0x1e ||
  c == Char.ofNat 0x85 || c == Char.ofNat 0x2028 || c == Char.ofNat 0x2029

/-- Helper for `splitlines`: `cur` collects the current line reversed. -/
def splitlinesAux : List Char → List Char → List (List Char)
  | cur, [] => if cur.isEmpty then [] else [cur.reverse]
  | cur, '\r' :: '\n' :: rest => cur.reverse :: splitlinesAux [] rest
  | cur, c :: rest =>
    if isLineBreak c then cur.reverse :: splitlinesAux [] rest
    else splitlinesAux (c :: cur) rest

/-- Python `str.splitlines()` as used by `assemble` (no trailing empty line
for a trailing newline; `\r\n` counts as a single break). -/
def splitlines (cs : List Char) : List (List Char) :=
  splitlinesAux [] cs

/-- Number of leading characters of a list satisfying `p`. -/
def leadingCount (p : Char → Bool) : List Char → Nat
  | [] => 0
  | c :: cs => if p c then leadingCount p cs + 1 else 0

/-- Python `s.lstrip().rstrip()` (no arguments: strips `str.isspace`
characters from both ends), as applied to label lines and tokens
in `assemble`. -/
def pyStrip (cs : List Char) : List Char :=
  ((cs.dropWhile pyIsSpace).reverse.dropWhile pyIsSpace).reverse

/-- Python `line.split(maxsplit=1)` followed by stripping each element, as in
`assemble`: at most two tokens, the mnemonic and the whole stripped remainder
of the line.  (The first token contains no whitespace, so stripping it is the
identity.) -/
def tokenize (line : List Char) : List (List Char) :=
  let t := line.dropWhile pyIsSpace
  if t.isEmpty then []
  else
    let tok := t.takeWhile (fun c => !(pyIsSpace c))
    let rest := (t.drop tok.length).dropWhile pyIsSpace
    if rest.isEmpty then [tok] else [tok, pyStrip rest]

/-- Value of a decimal digit character. -/
def digitVal (c : Char) : Nat := c.toNat - '0'.toNat

/-- Helper for `pyInt`: remaining characters after the first digit.  Python's
`int` accepts single underscores between digits. -/
def pyIntAux : Nat → List Char → Option Nat
  | acc, [] => some acc
  | acc, '_' :: c :: cs =>
    if c.isDigit then pyIntAux (acc * 10 + digitVal c) cs else none
  | _, ['_'] => none
  | acc, c :: cs =>
    if c.isDigit then pyIntAux (acc * 10 + digitVal c) cs else none

/-- Python `int(s)` on an already-stripped token that begins with a digit:
succeeds exactly on digit runs optionally separated by single underscores. -/
def pyInt : List Char → Option Nat
  | [] => none
  | c :: cs => if c.isDigit then pyIntAux (digitVal c) cs else none

/-- An instruction operand: Python keeps operands as `str` (quoted literals
with quotes stripped, or bare symbols) or `int`. -/
inductive Arg
  | s (v : String)
  | i (v : Nat)
deriving DecidableEq, Repr

/-- The closed set of opcode tags of the `metaops` dispatch table. -/
inductive Op
  | tst | id | num | sr | cll | r | set | b | bt | bf | be
  | cl | ci | gn1 | gn2 | lb | out
deriving DecidableEq, Repr

/-- The `metaops` opcode table: mnemonic string to opcode tag. -/
def strToOp : String → Option Op
  | "tst" => some .tst
  | "id" => some .id
  | "num" => some .num
  | "sr" => some .sr
  | "cll" => some .cll
  | "r" => some .r
  | "set" => some .set
  | "b" => some .b
  | "bt" => some .bt
  | "bf" => some .bf
  | "be" => some .be
  | "cl" => some .cl
  | "ci" => some .ci
  | "gn1" => some .gn1
  | "gn2" => some .gn2
  | "lb" => some .lb
  | "out" => some .out
  | _ => none

/-- The `VM` dataclass: field names and order follow the source. -/
structure VM where
  program_counter : Nat
  memory : List (Op × List Arg)
  switch : Bool
  inbuf : List Char
  outbuf : String
  outline : String
  outlabel : Bool
  labels : List (String × Nat)
  stack : List Int
  inbuf_index : Nat
  deleted : List Char
  templabel : Nat
deriving DecidableEq, Repr

/-- The fresh `VM(0, [])` built by `MetaII.__init__` (dataclass defaults). -/
def VM.init : VM :=
  { program_counter := 0, memory := [], switch := false, inbuf := []
    outbuf := "", outline := "", outlabel := false, labels := []
    stack := [], inbuf_index := 0, deleted := [], templabel := 0 }

/-- `VM.reset`: the source resets `stack`, `outbuf`, `outlabel`, `outline`,
`deleted`, `switch` and `templabel` — and, notably, not `inbuf_index`. -/
def VM.reset (vm : VM) : VM :=
  { vm with stack := [], outbuf := "", outlabel := false, outline := ""
            deleted := [], switch := false, templabel := 0 }

/-- `VM.input`: the input buffer from the current index on. -/
def VM.input (vm : VM) : List Char :=
  vm.inbuf.drop vm.inbuf_index

/-- `VM.skip_ws`: the while loop seeks forward one position per leading
`string.whitespace` character of `input` (each `seek(1)` is a relative,
non-negative move, so `max(0, ·)` never truncates). -/
def VM.skip_ws (vm : VM) : VM :=
  { vm with inbuf_index := vm.inbuf_index + leadingCount isAsciiWs vm.input }

/-- `VM.delete`: store the next `chars` characters of `input` in `deleted`
and seek past them. -/
def VM.delete (vm : VM) (chars : Nat) : VM :=
  { vm with deleted := vm.input.take chars
            inbuf_index := vm.inbuf_index + chars }

/-- `VM.linenum`: newline count before the cursor, plus one. -/
def VM.linenum (vm : VM) : Nat :=
  (vm.inbuf.take vm.inbuf_index).count '\n' + 1

/-- Lookup in the insertion-ordered association list modelling a Python
`dict` (keys are unique, see `dictInsert`). -/
def dictLookup (d : List (String × Nat)) (k : String) : Option Nat :=
  match d with
  | [] => none
  | (k', v) :: rest => if k' = k then some v else dictLookup rest k

/-- Python `d[k] = v`: replace the value in place if the key exists,
otherwise append the new binding. -/
def dictInsert (d : List (String × Nat)) (k : String) (v : Nat) :
    List (String × Nat) :=
  match d with
  | [] => [(k, v)]
  | (k', v') :: rest =>
    if k' = k then (k', v) :: rest else (k', v') :: dictInsert rest k v

/-- `VM.resolve`: a string operand is looked up in `labels` (a missing key
raises, modelled as `none`); an integer operand is itself. -/
def VM.resolve (vm : VM) : Arg → Option Nat
  | .s name => dictLookup vm.labels name
  | .i n => some n

/-- Match length for `op_tst`: the operand literal if it is a prefix of
the input. -/
def tstLen (s : String) (cs : List Char) : Option Nat :=
  if s.toList.isPrefixOf cs then some s.toList.length else none

/-- Match length of the regex `[a-zA-Z][a-zA-Z0-9]*` at the start of `cs`
(`op_id`). -/
def idMatchLen (cs : List Char) : Option Nat :=
  match cs with
  | [] => none
  | c :: rest =>
    if c.isAlpha then some (1 + leadingCount Char.isAlphanum rest) else none

/-- Length matched by the `(\.[0-9]+)*` tail of the `op_num` regex:
repeatedly a dot followed by at least one digit. -/
def numTailLen (cs : List Char) : Nat :=
  match cs with
  | c :: rest =>
    if c = '.' then
      if leadingCount Char.isDigit rest = 0 then 0
      else 1 + leadingCount Char.isDigit rest
        + numTailLen (rest.drop (leadingCount Char.isDigit rest))
    else 0
  | [] => 0
termination_by cs.length
decreasing_by
  simp only [List.length_cons, List.length_drop]
  omega

/-- Match length of the regex `[0-9]+(\.[0-9]+)*` at the start of `cs`
(`op_num`). -/
def numMatchLen (cs : List Char) : Option Nat :=
  if leadingCount Char.isDigit cs = 0 then none
  else some (leadingCount Char.isDigit cs
    + numTailLen (cs.drop (leadingCount Char.isDigit cs)))

/-- The quote character. -/
def quoteChar : Char := Char.ofNat 39

/-- Match length of the regex `'[^']+'` at the start of `cs` (`op_sr`):
a quote, one or more non-quote characters, and a closing quote, quotes
included in the span. -/
def srMatchLen (cs : List Char) : Option Nat :=
  match cs with
  | c :: rest =>
    if c == quoteChar then
      if leadingCount (fun c => !(c == quoteChar)) rest ≠ 0 ∧
          (rest.drop (leadingCount (fun c => !(c == quoteChar)) rest)).head?
            = some quoteChar then
        some (leadingCount (fun c => !(c == quoteChar)) rest + 2)
      else none
    else none
  | [] => none

/-- Common shape of the four matching opcodes: skip leading whitespace, try
the matcher against the remaining input; on a match delete the span and set
the switch, otherwise reset the switch. -/
def matchOp (vm : VM) (lenOf : List Char → Option Nat) : VM :=
  let w := vm.skip_ws
  match lenOf w.input with
  | some n => { w.delete n with switch := true }
  | none => { w with switch := false }

/-- `op_tst`. -/
def op_tst (vm : VM) (s : String) : VM := matchOp vm (tstLen s)

/-- `op_id`. -/
def op_id (vm : VM) : VM := matchOp vm idMatchLen

/-- `op_num`. -/
def op_num (vm : VM) : VM := matchOp vm numMatchLen

/-- `op_sr`. -/
def op_sr (vm : VM) : VM := matchOp vm srMatchLen

/-- `op_cll` with the branch target already resolved: if the stack has at
least two entries and the top two are both zero, push a single entry and
store `program_counter * (-1)` three slots from the top; otherwise push
three zero entries and store `program_counter * 1` there.  Then jump. -/
def op_cll (vm : VM) (target : Nat) : VM :=
  if 2 ≤ vm.stack.length ∧
      vm.stack.drop (vm.stack.length - 2) = ([0, 0] : List Int) then
    { vm with stack := (vm.stack ++ [0]).set ((vm.stack ++ [0]).length - 3)
                (-(vm.program_counter : Int))
              program_counter := target }
  else
    { vm with stack := (vm.stack ++ [0, 0, 0]).set
                ((vm.stack ++ [0, 0, 0]).length - 3) (vm.program_counter : Int)
              program_counter := target }

/-- `op_r`: read the return address three slots from the top.  If negative,
negate it, pop one entry and overwrite the two now-topmost entries with
zeros (`stack[-2:] = [0, 0]`); otherwise delete the top three entries.
Jump to the (made positive) return address. -/
def op_r (vm : VM) : VM :=
  if vm.stack.getD (vm.stack.length - 3) 0 < 0 then
    { vm with stack := vm.stack.dropLast.take (vm.stack.dropLast.length - 2)
                ++ [0, 0]
              program_counter := (vm.stack.getD (vm.stack.length - 3) 0).natAbs }
  else
    { vm with stack := vm.stack.take (vm.stack.length - 3)
              program_counter := (vm.stack.getD (vm.stack.length - 3) 0).toNat }

/-- `op_set`. -/
def op_set (vm : VM) : VM := { vm with switch := true }

/-- `op_b` with the target already resolved. -/
def op_b (vm : VM) (target : Nat) : VM := { vm with program_counter := target }

/-- `op_cl`. -/
def op_cl (vm : VM) (s : String) : VM := { vm with outline := vm.outline ++ s }

/-- `op_ci`. -/
def op_ci (vm : VM) : VM :=
  { vm with outline := vm.outline ++ String.mk vm.deleted }

/-- `op_gn`: read the temp-label slot `offset` positions from the stack top;
if it is zero, allocate `templabel + 1` into it; append `"l"` plus the label
number to the output line. -/
def op_gn (vm : VM) (offset : Nat) : VM :=
  if vm.stack.getD (vm.stack.length - offset) 0 = 0 then
    { vm with templabel := vm.templabel + 1
              stack := vm.stack.set (vm.stack.length - offset)
                ((vm.templabel + 1 : Nat) : Int)
              outline := vm.outline ++ "l" ++ toString (vm.templabel + 1) }
  else
    { vm with outline := vm.outline ++ "l"
        ++ toString (vm.stack.getD (vm.stack.length - offset) 0) }

/-- `op_gn1`. -/
def op_gn1 (vm : VM) : VM := op_gn vm 1

/-- `op_gn2`. -/
def op_gn2 (vm : VM) : VM := op_gn vm 2

/-- `op_lb`. -/
def op_lb (vm : VM) : VM := { vm with outlabel := true }

/-- `op_out`: prefix a tab unless `outlabel` is set, flush `outline` with a
newline, reset `outlabel` and clear `outline`. -/
def op_out (vm : VM) : VM :=
  { vm with outbuf := vm.outbuf ++ (if vm.outlabel then "" else "\t") ++
              vm.outline ++ "\n"
            outlabel := false, outline := "" }

/-- Result of executing one opcode: normal next state, the `MetaSyntax`
exception (caught by `run`; carries the state at raise time), or any other
uncaught Python exception (`KeyError`, `IndexError`, `TypeError`, ...). -/
inductive ExecOut
  | ok (vm : VM)
  | metaErr (vm : VM)
  | crash
deriving DecidableEq, Repr

/-- Dispatch one opcode against the state.  Operand access (`args[0]`),
label resolution, wrong operand types and short stacks crash exactly where
the Python code would raise; `op_be` raises `MetaSyntax` when the switch is
off.  For `bt`/`bf` the target is resolved only when the branch is taken,
as in the source. -/
def execOp (vm : VM) (op : Op) (args : List Arg) : ExecOut :=
  match op with
  | .tst =>
    match args with
    | .s s :: _ => .ok (op_tst vm s)
    | _ => .crash
  | .id => .ok (op_id vm)
  | .num => .ok (op_num vm)
  | .sr => .ok (op_sr vm)
  | .cll =>
    match args with
    | a :: _ =>
      match vm.resolve a with
      | some t => .ok (op_cll vm t)
      | none => .crash
    | [] => .crash
  | .r => if 3 ≤ vm.stack.length then .ok (op_r vm) else .crash
  | .set => .ok (op_set vm)
  | .b =>
    match args with
    | a :: _ =>
      match vm.resolve a with
      | some t => .ok (op_b vm t)
      | none => .crash
    | [] => .crash
  | .bt =>
    if vm.switch then
      match args with
      | a :: _ =>
        match vm.resolve a with
        | some t => .ok { vm with program_counter := t }
        | none => .crash
      | [] => .crash
    else .ok vm
  | .bf =>
    if vm.switch then .ok vm
    else
      match args with
      | a :: _ =>
        match vm.resolve a with
        | some t => .ok { vm with program_counter := t }
        | none => .crash
      | [] => .crash
  | .be => if vm.switch then .ok vm else .metaErr vm
  | .cl =>
    match args with
    | .s s :: _ => .ok (op_cl vm s)
    | _ => .crash
  | .ci => .ok (op_ci vm)
  | .gn1 => if 1 ≤ vm.stack.length then .ok (op_gn1 vm) else .crash
  | .gn2 => if 2 ≤ vm.stack.length then .ok (op_gn2 vm) else .crash
  | .lb => .ok (op_lb vm)
  | .out => .ok (op_out vm)

/-- `MetaII.step`: fetch the instruction at the program counter, increment
the counter, then execute (so jumps overwrite the incremented counter). -/
def step (vm : VM) : ExecOut :=
  match vm.memory.get? vm.program_counter with
  | none => .crash
  | some (op, args) =>
    execOp { vm with program_counter := vm.program_counter + 1 } op args

/-- Outcome of the fetch-execute loop of `MetaII.run`. -/
inductive RunOutcome
  | halted (vm : VM)
  | metaErr (vm : VM)
  | crashed
  | fuelOut
deriving DecidableEq, Repr

/-- The `while self.meta_vm.program_counter < len(self.meta_vm.memory)` loop
of `MetaII.run`, with explicit fuel for the (possibly unbounded) iteration
count.  The bound check happens before any fuel is consumed. -/
def runLoop : Nat → VM → RunOutcome
  | 0, vm =>
    if vm.program_counter < vm.memory.length then .fuelOut else .halted vm
  | fuel + 1, vm =>
    if vm.program_counter < vm.memory.length then
      match step vm with
      | .ok vm' => runLoop fuel vm'
      | .metaErr vm' => .metaErr vm'
      | .crash => .crashed
    else .halted vm

/-- Observable result of `MetaII.run`: the returned output string, or the
`None` return with the printed syntax-error line number, or an uncaught
exception, or fuel exhaustion. -/
inductive RunResult
  | success (out : String)
  | failure (line : Nat)
  | crashed
  | fuelOut
deriving DecidableEq, Repr

/-- The `MetaII` executor: its `VM` (holding memory and labels) and the
resolved start address. -/
structure MetaII where
  meta_vm : VM
  start : Nat
deriving DecidableEq, Repr

/-- The post-loop logic of `MetaII.run`: on natural exit the switch decides
success (returning `outbuf`) or failure (printing the line number and
returning `None`); a caught `MetaSyntax` prints the line number and returns
`None`.  The final VM is returned alongside to model the in-place mutation
of `self.meta_vm`. -/
def finishRun (m : MetaII) (o : RunOutcome) : RunResult × MetaII :=
  match o with
  | .halted vm' =>
    if vm'.switch then (.success vm'.outbuf, { m with meta_vm := vm' })
    else (.failure vm'.linenum, { m with meta_vm := vm' })
  | .metaErr vm' => (.failure vm'.linenum, { m with meta_vm := vm' })
  | .crashed => (.crashed, m)
  | .fuelOut => (.fuelOut, m)

/-- `MetaII.run`: reset the VM, install the source, set the program counter
to the start address, push the sentinel frame `[len(memory), 0, 0]`, then
loop and finish per `finishRun`. -/
def MetaII.run (m : MetaII) (source : List Char) (fuel : Nat) :
    RunResult × MetaII :=
  let vm0 := m.meta_vm.reset
  let vm1 := { vm0 with inbuf := source
                        program_counter := m.start
                        stack := vm0.stack ++ [(vm0.memory.length : Int), 0, 0] }
  finishRun m (runLoop fuel vm1)

/-- Loader state threaded through `assemble`: the local `labels`, `memory`
and `start` variables (`start` stays an operand until resolved at the end). -/
structure AsmSt where
  labels : List (String × Nat)
  memory : List (Op × List Arg)
  start : Arg
deriving DecidableEq, Repr

/-- Initial loader state: `labels = {}`, `memory = []`, `start = 0`. -/
def asmInit : AsmSt := { labels := [], memory := [], start := .i 0 }

/-- Errors that abort `assemble`: the explicit unknown-opcode `ValueError`
(carrying the mnemonic and the raw line), the `ValueError` raised by
`int(arg)` on a malformed numeric token, `StopIteration` from `next(split)`
on an all-`isspace` instruction line, `IndexError` from `args[0]` on a bare
`adr`, and `KeyError` resolving an undefined start label. -/
inductive AsmErr
  | badOpcode (opcode : String) (line : String)
  | intConvErr (tok : String)
  | noToken
  | adrMissingArg
  | startLabelMissing (name : String)
deriving DecidableEq, Repr

deriving instance DecidableEq for Except

/-- The `re.match(r"'([^']+)'", arg)` test of `assemble`: a quote, one or
more non-quote characters, a quote; returns the first group (quotes
stripped).  Trailing characters of the token are ignored, as `re.match`
only anchors at the start. -/
def srArgMatch (tok : List Char) : Option (List Char) :=
  match tok with
  | c :: rest =>
    if c == quoteChar then
      if leadingCount (fun c => !(c == quoteChar)) rest ≠ 0 ∧
          (rest.drop (leadingCount (fun c => !(c == quoteChar)) rest)).head?
            = some quoteChar then
        some (rest.take (leadingCount (fun c => !(c == quoteChar)) rest))
      else none
    else none
  | [] => none

/-- Classify one operand token: quoted string literal, else (if it begins
with a digit, per `re.match(r'[0-9]+', arg)`) the `int(arg)` conversion —
which raises when the token is not a well-formed integer literal — else a
bare symbol. -/
def parseArg (tok : List Char) : Except AsmErr Arg :=
  match srArgMatch tok with
  | some content => .ok (.s (String.mk content))
  | none =>
    if tok.takeWhile Char.isDigit ≠ [] then
      match pyInt tok with
      | some v => .ok (.i v)
      | none => .error (.intConvErr (String.mk tok))
    else .ok (.s (String.mk tok))

/-- Classify every operand token in order (at most one exists, since the
line was split with `maxsplit=1`). -/
def parseArgs : List (List Char) → Except AsmErr (List Arg)
  | [] => .ok []
  | t :: rest =>
    match parseArg t with
    | .ok a =>
      match parseArgs rest with
      | .ok more => .ok (a :: more)
      | .error e => .error e
    | .error e => .error e

/-- A line all of whose characters are in `string.whitespace` is skipped. -/
def isBlankLine (line : List Char) : Bool := line.all isAsciiWs

/-- A non-blank line whose first character is not in `string.whitespace`
is a label definition. -/
def isLabelLine (line : List Char) : Bool :=
  match line with
  | [] => false
  | c :: _ => !(isAsciiWs c)

/-- Process one line of the `assemble` loop body.  `.inl` continues with the
updated state, `.inr` is the `break` taken on `end`.  Note the source parses
the operands before testing the mnemonic, so an operand error fires even for
unknown mnemonics and for `adr`/`end` lines. -/
def asmLine (st : AsmSt) (line : List Char) : Except AsmErr (AsmSt ⊕ AsmSt) :=
  if isBlankLine line then .ok (.inl st)
  else if isLabelLine line then
    .ok (.inl { st with
      labels := dictInsert st.labels (String.mk (pyStrip line))
                  st.memory.length })
  else
    match tokenize line with
    | [] => .error .noToken
    | opTok :: argToks =>
      match parseArgs argToks with
      | .error e => .error e
      | .ok args =>
        match strToOp (String.mk opTok) with
        | some op => .ok (.inl { st with memory := st.memory ++ [(op, args)] })
        | none =>
          if String.mk opTok = "adr" then
            match args with
            | a :: _ => .ok (.inl { st with start := a })
            | [] => .error .adrMissingArg
          else if String.mk opTok = "end" then .ok (.inr st)
          else .error (.badOpcode (String.mk opTok) (String.mk line))

/-- The `for line in assembly.splitlines()` loop.  The boolean records
whether the loop was left by `end` (later lines are then ignored). -/
def asmLines : List (List Char) → AsmSt → Except AsmErr (AsmSt × Bool)
  | [], st => .ok (st, false)
  | line :: rest, st =>
    match asmLine st line with
    | .error e => .error e
    | .ok (.inr stStop) => .ok (stStop, true)
    | .ok (.inl st') => asmLines rest st'

/-- `MetaII()` followed by `MetaII.assemble(source)`: run the line loop from
a fresh state, store memory and labels into a fresh VM, and resolve the
start address against the final label table. -/
def assemble (source : List Char) : Except AsmErr MetaII :=
  match asmLines (splitlines source) asmInit with
  | .error e => .error e
  | .ok (st, _) =>
    match st.start with
    | .i n => .ok { meta_vm := { VM.init with memory := st.memory
                                              labels := st.labels }
                    start := n }
    | .s name =>
      match dictLookup st.labels name with
      | some n => .ok { meta_vm := { VM.init with memory := st.memory
                                                  labels := st.labels }
                        start := n }
      | none => .error (.startLabelMissing name)

/-- A one-instruction program `tst 'x'` with start address 0, used to
exhibit the stale-input-cursor behavior of a second `run`. -/
def c3prog : MetaII :=
  { meta_vm := { VM.init with memory := [(Op.tst, [Arg.s "x"])] }, start := 0 }

/-- The two-instruction program `cl 'hi'` / `out` with start address 0. -/
def c4prog : MetaII :=
  { meta_vm := { VM.init with
      memory := [(Op.cl, [Arg.s "hi"]), (Op.out, [])] }, start := 0 }

/-- Result of assembling `"foo\n tst 'x'"`: label `foo` bound to index 0. -/
def c6prog : MetaII :=
  { meta_vm := { VM.init with memory := [(Op.tst, [Arg.s "x"])]
                              labels := [("foo", 0)] }, start := 0 }

/-! ### List helper lemmas -/

theorem set_append_len (S l : List Int) (i : Nat) (v : Int) :
    (S ++ l).set (S.length + i) v = S ++ l.set i v := by
  induction S with
  | nil => simp
  | cons a S ih =>
    have h : (a :: S).length + i = (S.length + i) + 1 := by
      simp [List.length_cons]; omega
    rw [List.cons_append, h, List.set_cons_succ, ih, List.cons_append]

theorem getD_append_len (S l : List Int) (i : Nat) (d : Int) :
    (S ++ l).getD (S.length + i) d = l.getD i d := by
  induction S with
  | nil => simp
  | cons a S ih =>
    have h : (a :: S).length + i = (S.length + i) + 1 := by
      simp [List.length_cons]; omega
    rw [List.cons_append, h, List.getD_cons_succ, ih]

theorem getD_set_self (l : List Int) (i : Nat) (v d : Int) (h : i < l.length) :
    (l.set i v).getD i d = v := by
  induction l generalizing i with
  | nil => simp at h
  | cons a t ih =>
    cases i with
    | zero => rfl
    | succ n =>
      rw [List.set_cons_succ, List.getD_cons_succ]
      exact ih n (by simpa using Nat.lt_of_succ_lt_succ (by simpa using h))

/-! ### Branch lemmas for `op_cll` and `op_r` -/

theorem op_cll_elide (vm : VM) (t : Nat) (S : List Int)
    (h : vm.stack = S ++ [0, 0]) :
    op_cll vm t = { vm with
      stack := S ++ [-(vm.program_counter : Int), 0, 0]
      program_counter := t } := by
  have hc : 2 ≤ vm.stack.length ∧
      vm.stack.drop (vm.stack.length - 2) = ([0, 0] : List Int) := by
    constructor
    · rw [h]; simp
    · rw [h]
      have hl : (S ++ ([0, 0] : List Int)).length - 2 = S.length + 0 := by
        simp
      rw [hl, List.drop_append]
      rfl
  unfold op_cll
  rw [if_pos hc]
  have h1 : vm.stack ++ [(0 : Int)] = S ++ [0, 0, 0] := by
    rw [h, List.append_assoc]
    rfl
  rw [h1]
  have h2 : (S ++ ([0, 0, 0] : List Int)).length - 3 = S.length + 0 := by simp
  rw [h2, set_append_len]
  rfl

theorem op_cll_noelide (vm : VM) (t : Nat)
    (h : ¬(2 ≤ vm.stack.length ∧
        vm.stack.drop (vm.stack.length - 2) = ([0, 0] : List Int))) :
    op_cll vm t = { vm with
      stack := vm.stack ++ [(vm.program_counter : Int), 0, 0]
      program_counter := t } := by
  unfold op_cll
  rw [if_neg h]
  have h2 : (vm.stack ++ ([0, 0, 0] : List Int)).length - 3
      = vm.stack.length + 0 := by simp
  rw [h2, set_append_len]
  rfl

theorem op_r_nonneg (vm : VM) (S : List Int) (a : Int)
    (hS : vm.stack = S ++ [a, 0, 0]) (ha : 0 ≤ a) :
    op_r vm = { vm with stack := S, program_counter := a.toNat } := by
  have hidx : vm.stack.length - 3 = S.length + 0 := by rw [hS]; simp
  have hret : vm.stack.getD (vm.stack.length - 3) 0 = a := by
    rw [hidx, hS, getD_append_len]
    rfl
  unfold op_r
  rw [hret, if_neg (by omega)]
  have htake : vm.stack.take (vm.stack.length - 3) = S := by
    rw [hidx, hS, List.take_append]
    simp
  rw [htake]

theorem op_r_neg (vm : VM) (S : List Int) (a x y : Int)
    (hS : vm.stack = S ++ [a, x, y]) (ha : a < 0) :
    op_r vm = { vm with stack := S ++ [0, 0]
                        program_counter := a.natAbs } := by
  have hidx : vm.stack.length - 3 = S.length + 0 := by rw [hS]; simp
  have hret : vm.stack.getD (vm.stack.length - 3) 0 = a := by
    rw [hidx, hS, getD_append_len]
    rfl
  have hassoc : S ++ [a, x, y] = (S ++ [a, x]) ++ [y] := by
    rw [List.append_assoc]
    rfl
  have hpop : vm.stack.dropLast = S ++ [a, x] := by
    rw [hS, hassoc, List.dropLast_concat]
  unfold op_r
  rw [hret, if_pos ha, hpop]
  have hlen : (S ++ ([a, x] : List Int)).length - 2 = S.length + 0 := by simp
  rw [hlen, List.take_append]
  simp

/-- Claim C1: at any reachable state (the program counter was incremented by
`step` before the opcode runs, so it is at least 1), `cll` pushes exactly
one entry and stores the negated program counter three slots from the top
when the stack's top two entries exist and are both zero, and otherwise
pushes exactly three zero entries and stores the positive program counter
there; a matching `r` (run from any state whose stack is the post-`cll`
stack) restores the stack to its exact pre-`cll` value — popping one entry
and re-zeroing the two beneath it in the negative case and popping three in
the non-negative case — and sets the program counter to the absolute value
of the stored return address, i.e. the pre-`cll` counter. -/
theorem c1_cll_r_balance (vm vm2 : VM) (t : Nat)
    (hpc : 1 ≤ vm.program_counter)
    (hst : vm2.stack = (op_cll vm t).stack) :
    ((2 ≤ vm.stack.length ∧
        vm.stack.drop (vm.stack.length - 2) = ([0, 0] : List Int)) →
      (op_cll vm t).stack.length = vm.stack.length + 1 ∧
      (op_cll vm t).stack.getD ((op_cll vm t).stack.length - 3) 0
        = -(vm.program_counter : Int)) ∧
    (¬(2 ≤ vm.stack.length ∧
        vm.stack.drop (vm.stack.length - 2) = ([0, 0] : List Int)) →
      (op_cll vm t).stack = vm.stack ++ [(vm.program_counter : Int), 0, 0] ∧
      (op_cll vm t).stack.length = vm.stack.length + 3 ∧
      (op_cll vm t).stack.getD ((op_cll vm t).stack.length - 3) 0
        = (vm.program_counter : Int)) ∧
    (op_r vm2).stack = vm.stack ∧
    (op_r vm2).program_counter = vm.program_counter := by
  by_cases hc : 2 ≤ vm.stack.length ∧
      vm.stack.drop (vm.stack.length - 2) = ([0, 0] : List Int)
  · have hS : vm.stack = vm.stack.take (vm.stack.length - 2) ++ [0, 0] := by
      conv_lhs => rw [← List.take_append_drop (vm.stack.length - 2) vm.stack]
      rw [hc.2]
    set S := vm.stack.take (vm.stack.length - 2) with hSdef
    have hcll := op_cll_elide vm t S hS
    have hstack1 : (op_cll vm t).stack
        = S ++ [-(vm.program_counter : Int), 0, 0] := by rw [hcll]
    have hneg : -(vm.program_counter : Int) < 0 := by
      have : (0 : Int) < (vm.program_counter : Int) := by exact_mod_cast hpc
      omega
    have hvm2 : vm2.stack = S ++ [-(vm.program_counter : Int), 0, 0] := by
      rw [hst, hstack1]
    have hr := op_r_neg vm2 S (-(vm.program_counter : Int)) 0 0 hvm2 hneg
    refine ⟨fun _ => ?_, fun h => absurd hc h, ?_, ?_⟩
    · constructor
      · rw [hstack1, hS]
        simp
      · rw [hstack1]
        have hidx : (S ++ [-(vm.program_counter : Int), 0, 0]).length - 3
            = S.length + 0 := by simp
        rw [hidx, getD_append_len]
        rfl
    · have : (op_r vm2).stack = S ++ [0, 0] := by rw [hr]
      rw [this, ← hS]
    · have : (op_r vm2).program_counter
          = (-(vm.program_counter : Int)).natAbs := by rw [hr]
      rw [this]
      simp
  · have hcll := op_cll_noelide vm t hc
    have hstack1 : (op_cll vm t).stack
        = vm.stack ++ [(vm.program_counter : Int), 0, 0] := by rw [hcll]
    have hvm2 : vm2.stack = vm.stack ++ [(vm.program_counter : Int), 0, 0] := by
      rw [hst, hstack1]
    have hr := op_r_nonneg vm2 vm.stack (vm.program_counter : Int) hvm2
      (by exact_mod_cast Nat.zero_le _)
    refine ⟨fun h => absurd h hc, fun _ => ?_, ?_, ?_⟩
    · refine ⟨hstack1, by rw [hstack1]; simp, ?_⟩
      rw [hstack1]
      have hidx : (vm.stack ++ [(vm.program_counter : Int), 0, 0]).length - 3
          = vm.stack.length + 0 := by simp
      rw [hidx, getD_append_len]
      rfl
    · have : (op_r vm2).stack = vm.stack := by rw [hr]
      rw [this]
    · have : (op_r vm2).program_counter
          = ((vm.program_counter : Int)).toNat := by rw [hr]
      rw [this]
      simp

/-- Witness for C1 at a concrete state: program counter 1, stack `[0, 0]`
(the elidable shape), calling target 5 and returning. -/
theorem c1_witness :
    (op_r (op_cll { VM.init with program_counter := 1, stack := [0, 0] } 5)).stack
      = [0, 0] ∧
    (op_r (op_cll { VM.init with program_counter := 1, stack := [0, 0] } 5)).program_counter
      = 1 := by
  have h := c1_cll_r_balance
    { VM.init with program_counter := 1, stack := [0, 0] }
    (op_cll { VM.init with program_counter := 1, stack := [0, 0] } 5)
    5 (by decide) rfl
  exact ⟨h.2.2.1, h.2.2.2⟩

/-! ### The matching family: frame effects and cursor behavior -/

theorem matchOp_frame_eq (vm : VM) (f : List Char → Option Nat) :
    matchOp vm f = { vm with inbuf_index := (matchOp vm f).inbuf_index
                             deleted := (matchOp vm f).deleted
                             switch := (matchOp vm f).switch } := by
  cases h : f vm.skip_ws.input <;>
    (simp only [matchOp, h]; simp [VM.skip_ws, VM.delete])

/-- Claim C9: each of `tst`, `id`, `num`, `sr` can change only the input
cursor, `deleted` (last-matched text) and the condition flag; the program
counter, output buffer, output line, pending-label flag, call stack,
temp-label counter (and memory, labels and input text) are untouched. -/
theorem c9_match_frame (vm : VM) (s : String) :
    op_tst vm s = { vm with inbuf_index := (op_tst vm s).inbuf_index
                            deleted := (op_tst vm s).deleted
                            switch := (op_tst vm s).switch } ∧
    op_id vm = { vm with inbuf_index := (op_id vm).inbuf_index
                         deleted := (op_id vm).deleted
                         switch := (op_id vm).switch } ∧
    op_num vm = { vm with inbuf_index := (op_num vm).inbuf_index
                          deleted := (op_num vm).deleted
                          switch := (op_num vm).switch } ∧
    op_sr vm = { vm with inbuf_index := (op_sr vm).inbuf_index
                         deleted := (op_sr vm).deleted
                         switch := (op_sr vm).switch } :=
  ⟨matchOp_frame_eq vm (tstLen s), matchOp_frame_eq vm idMatchLen,
   matchOp_frame_eq vm numMatchLen, matchOp_frame_eq vm srMatchLen⟩

theorem leadingCount_le (p : Char → Bool) (l : List Char) :
    leadingCount p l ≤ l.length := by
  induction l with
  | nil => simp [leadingCount]
  | cons c cs ih =>
    rw [leadingCount]
    split
    · simp only [List.length_cons]
      omega
    · simp

theorem tstLen_le (s : String) (cs : List Char) (n : Nat)
    (h : tstLen s cs = some n) : n ≤ cs.length := by
  unfold tstLen at h
  split at h
  · next hp =>
    cases h
    exact (List.isPrefixOf_iff_prefix.mp hp).length_le
  · cases h

theorem idMatchLen_le (cs : List Char) (n : Nat)
    (h : idMatchLen cs = some n) : n ≤ cs.length := by
  cases cs with
  | nil => simp [idMatchLen] at h
  | cons c rest =>
    simp only [idMatchLen] at h
    by_cases ha : c.isAlpha
    · rw [if_pos ha] at h
      simp only [Option.some.injEq] at h
      have := leadingCount_le Char.isAlphanum rest
      simp only [List.length_cons]
      omega
    · rw [if_neg ha] at h
      exact absurd h (by simp)

theorem numTailLen_le (cs : List Char) : numTailLen cs ≤ cs.length := by
  have key : ∀ (k : Nat) (l : List Char), l.length ≤ k →
      numTailLen l ≤ l.length := by
    intro k
    induction k with
    | zero =>
      intro l hl
      have hnil : l = [] := List.length_eq_zero.mp (Nat.le_zero.mp hl)
      subst hnil
      simp [numTailLen]
    | succ k ih =>
      intro l hl
      match l with
      | [] => simp [numTailLen]
      | c :: rest =>
        simp only [numTailLen]
        by_cases hdot : c = '.'
        · rw [if_pos hdot]
          by_cases hz : leadingCount Char.isDigit rest = 0
          · rw [if_pos hz]
            simp
          · rw [if_neg hz]
            have h1 := ih (rest.drop (leadingCount Char.isDigit rest)) (by
              simp only [List.length_drop]
              simp only [List.length_cons] at hl
              omega)
            have h2 := leadingCount_le Char.isDigit rest
            simp only [List.length_drop] at h1
            simp only [List.length_cons]
            omega
        · rw [if_neg hdot]
          simp
  exact key cs.length cs le_rfl

theorem numMatchLen_le (cs : List Char) (n : Nat)
    (h : numMatchLen cs = some n) : n ≤ cs.length := by
  unfold numMatchLen at h
  split at h
  · cases h
  · cases h
    have h1 := numTailLen_le (cs.drop (leadingCount Char.isDigit cs))
    have h2 := leadingCount_le Char.isDigit cs
    simp only [List.length_drop] at h1
    omega

theorem srMatchLen_le (cs : List Char) (n : Nat)
    (h : srMatchLen cs = some n) : n ≤ cs.length := by
  cases cs with
  | nil => simp [srMatchLen] at h
  | cons c rest =>
    simp only [srMatchLen] at h
    by_cases hq : c == quoteChar
    · rw [if_pos hq] at h
      by_cases hcond : leadingCount (fun c => !(c == quoteChar)) rest ≠ 0 ∧
          (rest.drop (leadingCount (fun c => !(c == quoteChar)) rest)).head?
            = some quoteChar
      · rw [if_pos hcond] at h
        simp only [Option.some.injEq] at h
        have hne : rest.drop (leadingCount (fun c => !(c == quoteChar)) rest)
            ≠ [] := by
          intro he
          rw [he] at hcond
          simp at hcond
        have hlen : (rest.drop
            (leadingCount (fun c => !(c == quoteChar)) rest)).length
            ≠ 0 := fun hz => hne (List.length_eq_zero.mp hz)
        simp only [List.length_drop] at hlen
        have := leadingCount_le (fun c => !(c == quoteChar)) rest
        simp only [List.length_cons]
        omega
      · rw [if_neg hcond] at h
        exact absurd h (by simp)
    · rw [if_neg hq] at h
      exact absurd h (by simp)

theorem matchOp_spec (vm : VM) (f : List Char → Option Nat)
    (hf : ∀ cs n, f cs = some n → n ≤ cs.length) :
    ((matchOp vm f).switch = false →
      matchOp vm f = { vm.skip_ws with switch := false }) ∧
    ((matchOp vm f).switch = true →
      ∃ n, f vm.skip_ws.input = some n ∧
        (matchOp vm f).deleted = vm.skip_ws.input.take n ∧
        (matchOp vm f).deleted <+: vm.skip_ws.input ∧
        (matchOp vm f).deleted.length = n ∧
        (matchOp vm f).inbuf_index = vm.skip_ws.inbuf_index + n) := by
  cases h : f vm.skip_ws.input with
  | none =>
    constructor
    · intro _
      simp only [matchOp, h]
    · intro hs
      simp only [matchOp, h] at hs
      simp at hs
  | some n =>
    have hdel : (matchOp vm f).deleted = vm.skip_ws.input.take n := by
      simp only [matchOp, h]
      simp [VM.delete]
    have hidx : (matchOp vm f).inbuf_index = vm.skip_ws.inbuf_index + n := by
      simp only [matchOp, h]
      simp [VM.delete]
    constructor
    · intro hs
      simp only [matchOp, h] at hs
      simp at hs
    · intro _
      refine ⟨n, rfl, hdel, ?_, ?_, hidx⟩
      · rw [hdel]
        exact List.take_prefix n _
      · rw [hdel, List.length_take]
        exact Nat.min_eq_left (hf _ _ h)

/-- Claim C2 is false as stated: on a failed match the cursor is NOT left
unchanged — `skip_ws` has already consumed leading whitespace.  Concretely,
`tst 'x'` against the input `" "` (one space) at cursor 0 fails with the
condition flag false, yet leaves the cursor at 1. -/
theorem c2_counterexample :
    (op_tst { VM.init with inbuf := [' '] } "x").switch = false ∧
    ¬((op_tst { VM.init with inbuf := [' '] } "x").inbuf_index
        = ({ VM.init with inbuf := [' '] } : VM).inbuf_index) := by
  decide

/-- Claim C2 (amended): each matching instruction, when it fails, sets the
condition flag false and leaves the state exactly as after skipping leading
whitespace (so the cursor advances only past that whitespace, and
`last_matched` is unchanged); when it succeeds it sets the flag true,
records the matched span — a prefix of the post-whitespace input, and for
`tst` exactly the operand literal — in `last_matched`, and advances the
cursor exactly past the matched span. -/
theorem c2_amended (vm : VM) (s : String) :
    ((op_tst vm s).switch = false →
      op_tst vm s = { vm.skip_ws with switch := false }) ∧
    ((op_tst vm s).switch = true →
      (op_tst vm s).deleted = s.toList ∧
      (op_tst vm s).deleted <+: vm.skip_ws.input ∧
      (op_tst vm s).inbuf_index
        = vm.skip_ws.inbuf_index + (op_tst vm s).deleted.length) ∧
    ((op_id vm).switch = false →
      op_id vm = { vm.skip_ws with switch := false }) ∧
    ((op_id vm).switch = true →
      idMatchLen vm.skip_ws.input = some (op_id vm).deleted.length ∧
      (op_id vm).deleted <+: vm.skip_ws.input ∧
      (op_id vm).inbuf_index
        = vm.skip_ws.inbuf_index + (op_id vm).deleted.length) ∧
    ((op_num vm).switch = false →
      op_num vm = { vm.skip_ws with switch := false }) ∧
    ((op_num vm).switch = true →
      numMatchLen vm.skip_ws.input = some (op_num vm).deleted.length ∧
      (op_num vm).deleted <+: vm.skip_ws.input ∧
      (op_num vm).inbuf_index
        = vm.skip_ws.inbuf_index + (op_num vm).deleted.length) ∧
    ((op_sr vm).switch = false →
      op_sr vm = { vm.skip_ws with switch := false }) ∧
    ((op_sr vm).switch = true →
      srMatchLen vm.skip_ws.input = some (op_sr vm).deleted.length ∧
      (op_sr vm).deleted <+: vm.skip_ws.input ∧
      (op_sr vm).inbuf_index
        = vm.skip_ws.inbuf_index + (op_sr vm).deleted.length) := by
  simp only [op_tst, op_id, op_num, op_sr]
  have htst := matchOp_spec vm (tstLen s) (tstLen_le s)
  have hid := matchOp_spec vm idMatchLen idMatchLen_le
  have hnum := matchOp_spec vm numMatchLen numMatchLen_le
  have hsr := matchOp_spec vm srMatchLen srMatchLen_le
  refine ⟨htst.1, ?_, hid.1, ?_, hnum.1, ?_, hsr.1, ?_⟩
  · intro hs
    obtain ⟨n, hn, hdel, hpre, hlen, hidx⟩ := htst.2 hs
    have hnval : n = s.toList.length ∧ s.toList.isPrefixOf vm.skip_ws.input := by
      unfold tstLen at hn
      split at hn
      · next hp => exact ⟨by cases hn; rfl, hp⟩
      · cases hn
    refine ⟨?_, hpre, by rw [hidx, hlen]⟩
    rw [hdel, hnval.1]
    exact (List.prefix_iff_eq_take.mp
      (List.isPrefixOf_iff_prefix.mp hnval.2)).symm
  · intro hs
    obtain ⟨n, hn, _, hpre, hlen, hidx⟩ := hid.2 hs
    exact ⟨by rw [hlen]; exact hn, hpre, by rw [hidx, hlen]⟩
  · intro hs
    obtain ⟨n, hn, _, hpre, hlen, hidx⟩ := hnum.2 hs
    exact ⟨by rw [hlen]; exact hn, hpre, by rw [hidx, hlen]⟩
  · intro hs
    obtain ⟨n, hn, _, hpre, hlen, hidx⟩ := hsr.2 hs
    exact ⟨by rw [hlen]; exact hn, hpre, by rw [hidx, hlen]⟩

/-- Witness for C2 (amended) at concrete inputs: the failure branch on
input `" "` and the success branch on input `"x"`. -/
theorem c2_witness :
    op_tst { VM.init with inbuf := [' '] } "x"
      = { ({ VM.init with inbuf := [' '] } : VM).skip_ws with switch := false } ∧
    (op_tst { VM.init with inbuf := ['x'] } "x").deleted = "x".toList := by
  constructor
  · exact (c2_amended { VM.init with inbuf := [' '] } "x").1 (by decide)
  · exact (((c2_amended { VM.init with inbuf := ['x'] } "x").2.1) (by decide)).1

/-! ### Label generation (`gn1`/`gn2`) -/

theorem op_gn_alloc (vm : VM) (offset : Nat)
    (h : vm.stack.getD (vm.stack.length - offset) 0 = 0) :
    op_gn vm offset = { vm with
      templabel := vm.templabel + 1
      stack := vm.stack.set (vm.stack.length - offset)
        ((vm.templabel + 1 : Nat) : Int)
      outline := vm.outline ++ "l" ++ toString (vm.templabel + 1) } := by
  unfold op_gn
  rw [if_pos h]

theorem op_gn_noalloc (vm : VM) (offset : Nat)
    (h : vm.stack.getD (vm.stack.length - offset) 0 ≠ 0) :
    op_gn vm offset = { vm with
      outline := vm.outline ++ "l"
        ++ toString (vm.stack.getD (vm.stack.length - offset) 0) } := by
  unfold op_gn
  rw [if_neg h]

theorem op_gn_stable (vm2 : VM) (offset : Nat) (n : Int) (hn : n ≠ 0)
    (hsame : vm2.stack.getD (vm2.stack.length - offset) 0 = n) :
    op_gn vm2 offset
      = { vm2 with outline := vm2.outline ++ ("l" ++ toString n) } := by
  have h := op_gn_noalloc vm2 offset (by rw [hsame]; exact hn)
  rw [h, hsame, String.append_assoc]

/-- Claim C5: `gn1`/`gn2` (offset 1 or 2 from the stack top) allocate a
fresh number — `temp_label_counter + 1`, the counter never decreasing —
into the frame slot only when that slot is zero (a nonzero slot leaves the
stack and counter untouched); the text appended to the output line is
exactly `"l"` followed by the slot's (post-call, nonzero) number; and every
subsequent `gn1`/`gn2` referencing the same slot while it still holds that
number — that is, until the frame is popped and the slot re-zeroed, the
only way a nonzero slot ever changes — appends the identical label text
and changes nothing else. -/
theorem c5_gn_lazy_stable (vm : VM) (offset : Nat)
    (hoff : offset = 1 ∨ offset = 2) (hlen : offset ≤ vm.stack.length) :
    vm.templabel ≤ (op_gn vm offset).templabel ∧
    (vm.stack.getD (vm.stack.length - offset) 0 ≠ 0 →
      op_gn vm offset = { vm with outline := vm.outline ++
        ("l" ++ toString (vm.stack.getD (vm.stack.length - offset) 0)) }) ∧
    (vm.stack.getD (vm.stack.length - offset) 0 = 0 →
      (op_gn vm offset).templabel = vm.templabel + 1 ∧
      (op_gn vm offset).stack = vm.stack.set (vm.stack.length - offset)
        ((vm.templabel + 1 : Nat) : Int) ∧
      (op_gn vm offset).outline
        = vm.outline ++ ("l" ++ toString (vm.templabel + 1))) ∧
    (op_gn vm offset).stack.getD
      ((op_gn vm offset).stack.length - offset) 0 ≠ 0 ∧
    (op_gn vm offset).outline = vm.outline ++ ("l" ++ toString
      ((op_gn vm offset).stack.getD
        ((op_gn vm offset).stack.length - offset) 0)) ∧
    (∀ vm2 : VM, offset ≤ vm2.stack.length →
      vm2.stack.getD (vm2.stack.length - offset) 0
        = (op_gn vm offset).stack.getD
            ((op_gn vm offset).stack.length - offset) 0 →
      op_gn vm2 offset = { vm2 with outline := vm2.outline ++ ("l" ++ toString
        ((op_gn vm offset).stack.getD
          ((op_gn vm offset).stack.length - offset) 0)) }) := by
  have hidxlt : vm.stack.length - offset < vm.stack.length := by
    rcases hoff with h | h <;> omega
  by_cases hz : vm.stack.getD (vm.stack.length - offset) 0 = 0
  · have hop := op_gn_alloc vm offset hz
    have hstack : (op_gn vm offset).stack
        = vm.stack.set (vm.stack.length - offset)
            ((vm.templabel + 1 : Nat) : Int) := by rw [hop]
    have htl : (op_gn vm offset).templabel = vm.templabel + 1 := by rw [hop]
    have hout : (op_gn vm offset).outline
        = vm.outline ++ "l" ++ toString (vm.templabel + 1) := by rw [hop]
    have hslot : (op_gn vm offset).stack.getD
        ((op_gn vm offset).stack.length - offset) 0
        = ((vm.templabel + 1 : Nat) : Int) := by
      rw [hstack, List.length_set]
      exact getD_set_self _ _ _ _ hidxlt
    have hne0 : (op_gn vm offset).stack.getD
        ((op_gn vm offset).stack.length - offset) 0 ≠ 0 := by
      rw [hslot]
      exact_mod_cast Nat.succ_ne_zero vm.templabel
    refine ⟨by rw [htl]; omega, fun h => absurd hz h,
      fun _ => ⟨htl, hstack, by rw [hout, String.append_assoc]⟩,
      hne0, ?_, ?_⟩
    · rw [hslot, hout, String.append_assoc]
      rfl
    · intro vm2 _ hsame
      exact op_gn_stable vm2 offset _ hne0 hsame
  · have hop := op_gn_noalloc vm offset hz
    have hstack : (op_gn vm offset).stack = vm.stack := by rw [hop]
    have htl : (op_gn vm offset).templabel = vm.templabel := by rw [hop]
    have hout : (op_gn vm offset).outline
        = vm.outline ++ "l"
          ++ toString (vm.stack.getD (vm.stack.length - offset) 0) := by
      rw [hop]
    have hslot : (op_gn vm offset).stack.getD
        ((op_gn vm offset).stack.length - offset) 0
        = vm.stack.getD (vm.stack.length - offset) 0 := by rw [hstack]
    have hne0 : (op_gn vm offset).stack.getD
        ((op_gn vm offset).stack.length - offset) 0 ≠ 0 := by
      rw [hslot]
      exact hz
    refine ⟨by rw [htl],
      fun _ => op_gn_stable vm offset _ hz rfl,
      fun h => absurd h hz, hne0, ?_, ?_⟩
    · rw [hslot, hout, String.append_assoc]
    · intro vm2 _ hsame
      exact op_gn_stable vm2 offset _ hne0 hsame

/-- Witness for C5: a single-slot stack holding zero, offset 1 — the label
is freshly allocated as counter value 1, the appended text is `"l"`
followed by that number, and a subsequent `gn` on the same (still
unpopped) slot appends the identical text and changes nothing else. -/
theorem c5_witness :
    (op_gn { VM.init with stack := [0] } 1).templabel = 0 + 1 ∧
    (op_gn { VM.init with stack := [0] } 1).outline
      = ({ VM.init with stack := [0] } : VM).outline ++ ("l" ++ toString
          ((op_gn { VM.init with stack := [0] } 1).stack.getD
            ((op_gn { VM.init with stack := [0] } 1).stack.length - 1) 0)) ∧
    op_gn (op_gn { VM.init with stack := [0] } 1) 1
      = { op_gn { VM.init with stack := [0] } 1 with
          outline := (op_gn { VM.init with stack := [0] } 1).outline ++
            ("l" ++ toString
              ((op_gn { VM.init with stack := [0] } 1).stack.getD
                ((op_gn { VM.init with stack := [0] } 1).stack.length - 1)
                0)) } := by
  have h := c5_gn_lazy_stable { VM.init with stack := [0] } 1
    (Or.inl rfl) (by decide)
  exact ⟨(h.2.2.1 (by decide)).1, h.2.2.2.2.1,
    h.2.2.2.2.2 (op_gn { VM.init with stack := [0] } 1) (by decide) rfl⟩

/-! ### Run loop and failure reporting -/

theorem runLoop_go (f : Nat) (vm vm' : VM)
    (hlt : vm.program_counter < vm.memory.length)
    (hs : step vm = .ok vm') :
    runLoop (f + 1) vm = runLoop f vm' := by
  simp only [runLoop]
  rw [if_pos hlt, hs]

theorem runLoop_halt (f : Nat) (vm : VM)
    (h : ¬ vm.program_counter < vm.memory.length) :
    runLoop f vm = .halted vm := by
  cases f <;> (simp only [runLoop]; rw [if_neg h])

theorem step_metaErr_switch {vm vm' : VM} (h : step vm = .metaErr vm') :
    vm'.switch = false := by
  unfold step at h
  cases hm : vm.memory.get? vm.program_counter with
  | none =>
    rw [hm] at h
    simp at h
  | some ia =>
    rw [hm] at h
    obtain ⟨op, args⟩ := ia
    cases op <;>
      (simp only [execOp] at h
       repeat' split at h
       all_goals simp_all
       all_goals (try subst h)
       all_goals simp_all)

theorem runLoop_metaErr (fuel : Nat) (vm vm' : VM)
    (h : runLoop fuel vm = .metaErr vm') : vm'.switch = false := by
  induction fuel generalizing vm with
  | zero =>
    simp only [runLoop] at h
    split at h <;> simp at h
  | succ f ih =>
    simp only [runLoop] at h
    split at h
    · cases hs : step vm with
      | ok vm2 =>
        rw [hs] at h
        exact ih vm2 h
      | metaErr vm2 =>
        rw [hs] at h
        simp only [RunOutcome.metaErr.injEq] at h
        rw [← h]
        exact step_metaErr_switch hs
      | crash =>
        rw [hs] at h
        simp at h
    · simp at h

theorem finishRun_failure (m : MetaII) (o : RunOutcome) (n : Nat) (m' : MetaII)
    (hsw : ∀ vm, o = .metaErr vm → vm.switch = false)
    (h : finishRun m o = (.failure n, m')) :
    n = (m'.meta_vm.inbuf.take m'.meta_vm.inbuf_index).count '\n' + 1 ∧
    m'.meta_vm.switch = false := by
  cases o with
  | halted vm =>
    simp only [finishRun] at h
    by_cases hs : vm.switch
    · rw [if_pos hs] at h
      simp at h
    · rw [if_neg hs] at h
      simp only [Prod.mk.injEq, RunResult.failure.injEq] at h
      obtain ⟨h1, h2⟩ := h
      subst h2
      constructor
      · rw [← h1]
        rfl
      · simp only [Bool.not_eq_true] at hs
        exact hs
  | metaErr vm =>
    simp only [finishRun] at h
    simp only [Prod.mk.injEq, RunResult.failure.injEq] at h
    obtain ⟨h1, h2⟩ := h
    subst h2
    refine ⟨by rw [← h1]; rfl, ?_⟩
    exact hsw vm rfl
  | crashed =>
    simp only [finishRun] at h
    simp at h
  | fuelOut =>
    simp only [finishRun] at h
    simp at h

theorem finishRun_success (m : MetaII) (o : RunOutcome) (out : String)
    (m' : MetaII) (h : finishRun m o = (.success out, m')) :
    out = m'.meta_vm.outbuf ∧ m'.meta_vm.switch = true := by
  cases o with
  | halted vm =>
    simp only [finishRun] at h
    by_cases hs : vm.switch
    · rw [if_pos hs] at h
      simp only [Prod.mk.injEq, RunResult.success.injEq] at h
      obtain ⟨h1, h2⟩ := h
      subst h2
      exact ⟨h1.symm, hs⟩
    · rw [if_neg hs] at h
      simp at h
  | metaErr vm =>
    simp only [finishRun] at h
    simp at h
  | crashed =>
    simp only [finishRun] at h
    simp at h
  | fuelOut =>
    simp only [finishRun] at h
    simp at h

/-- Claim C7: whenever `run` fails — a `be` with the switch off raising
`MetaSyntax`, or the loop ending with the switch off — it reports the line
number as the count of newline characters before the input cursor plus one,
returns no output (the failure result carries only the line number, never
the buffer), and the final switch is false; on success the entire
`output_buffer` is returned. -/
theorem c7_failure_reporting (m : MetaII) (source : List Char) (fuel : Nat) :
    (∀ n m', m.run source fuel = (.failure n, m') →
      n = (m'.meta_vm.inbuf.take m'.meta_vm.inbuf_index).count '\n' + 1 ∧
      m'.meta_vm.switch = false) ∧
    (∀ out m', m.run source fuel = (.success out, m') →
      out = m'.meta_vm.outbuf ∧ m'.meta_vm.switch = true) := by
  constructor
  · intro n m' h
    simp only [MetaII.run] at h
    exact finishRun_failure _ _ _ _ (fun vm hv => runLoop_metaErr _ _ _ hv) h
  · intro out m' h
    simp only [MetaII.run] at h
    exact finishRun_success _ _ _ _ h

/-- Witness for C7: the empty program halts at once with the switch at its
false default, so `run` fails at line 1 (no input consumed). -/
theorem c7_witness :
    1 = (((MetaII.run { meta_vm := VM.init, start := 0 } [] 0).2).meta_vm.inbuf.take
          ((MetaII.run { meta_vm := VM.init, start := 0 } [] 0).2).meta_vm.inbuf_index).count '\n'
        + 1 ∧
    ((MetaII.run { meta_vm := VM.init, start := 0 } [] 0).2).meta_vm.switch
      = false := by
  have hpair : MetaII.run { meta_vm := VM.init, start := 0 } [] 0
      = (.failure 1, (MetaII.run { meta_vm := VM.init, start := 0 } [] 0).2) := by
    have h1 : (MetaII.run { meta_vm := VM.init, start := 0 } [] 0).1
        = RunResult.failure 1 := by decide
    rw [← h1]
  exact (c7_failure_reporting { meta_vm := VM.init, start := 0 } [] 0).1 1
    (MetaII.run { meta_vm := VM.init, start := 0 } [] 0).2 hpair


/-! ### Concrete runs: the scenario claims -/

/-- Claim C3: `run` does NOT reinstall the input cursor at 0 - `reset`
leaves `inbuf_index` untouched - so a second `run` on the same `MetaII`
instance diverges from a fresh VM.  Concretely: the program `tst 'x'` run
on source `"x"` succeeds and leaves the cursor at 1; running the same
instance again on `"x"` starts with the stale cursor and fails at line 1,
whereas a fresh VM succeeds. -/
theorem c3_stale_cursor :
    (c3prog.run "x".toList 1).1 = .success "" ∧
    (c3prog.run "x".toList 1).2.meta_vm.inbuf_index = 1 ∧
    ((c3prog.run "x".toList 1).2.run "x".toList 1).1 = .failure 1 := by
  decide

/-- Claim C4 is false as stated: the condition flag's initial (and
post-`reset`) value is `False`, not true, so the program `cl 'hi'; out`
ends with the flag false and `run` FAILS (returning nothing) instead of
succeeding with the output.  Counterexample at the empty input. -/
theorem c4_counterexample :
    assemble " cl 'hi'\n out".toList = .ok c4prog ∧
    (c4prog.run [] 2).1 = .failure 1 ∧
    (c4prog.run [] 2).2.meta_vm.switch = false := by
  decide

/-- Claim C4 (amended): for every input and sufficient fuel, running the
assembled program `cl 'hi'; out` (start 0) ends with the condition flag
false - its default initial value - so `run` reports failure at line 1 and
returns no output, although the internal output buffer holds exactly a tab,
`hi` and a newline. -/
theorem c4_amended (source : List Char) (fuel : Nat) :
    assemble " cl 'hi'\n out".toList = .ok c4prog ∧
    (c4prog.run source (fuel + 2)).1 = .failure 1 ∧
    (c4prog.run source (fuel + 2)).2.meta_vm.outbuf = "\thi\n" ∧
    (c4prog.run source (fuel + 2)).2.meta_vm.switch = false := by
  have hrun : c4prog.run source (fuel + 2)
      = (.failure 1,
         { c4prog with meta_vm :=
            ⟨2, [(Op.cl, [Arg.s "hi"]), (Op.out, [])], false, source,
             "\thi\n", "", false, [], [2, 0, 0], 0, [], 0⟩ }) := by
    have hA : c4prog.run source (fuel + 2)
        = finishRun c4prog (runLoop (fuel + 2)
            ⟨0, [(Op.cl, [Arg.s "hi"]), (Op.out, [])], false, source,
             "", "", false, [], [2, 0, 0], 0, [], 0⟩) := rfl
    rw [hA,
        runLoop_go _
          ⟨0, [(Op.cl, [Arg.s "hi"]), (Op.out, [])], false, source,
           "", "", false, [], [2, 0, 0], 0, [], 0⟩
          ⟨1, [(Op.cl, [Arg.s "hi"]), (Op.out, [])], false, source,
           "", "hi", false, [], [2, 0, 0], 0, [], 0⟩
          (by simp) rfl,
        runLoop_go _
          ⟨1, [(Op.cl, [Arg.s "hi"]), (Op.out, [])], false, source,
           "", "hi", false, [], [2, 0, 0], 0, [], 0⟩
          ⟨2, [(Op.cl, [Arg.s "hi"]), (Op.out, [])], false, source,
           "\thi\n", "", false, [], [2, 0, 0], 0, [], 0⟩
          (by simp) rfl,
        runLoop_halt _
          ⟨2, [(Op.cl, [Arg.s "hi"]), (Op.out, [])], false, source,
           "\thi\n", "", false, [], [2, 0, 0], 0, [], 0⟩
          (by simp)]
    rfl
  refine ⟨by decide, ?_, ?_, ?_⟩ <;> rw [hrun]

/-- Claim C10: an operand token beginning with digits but not a well-formed
integer literal (`12abc`) on a line with the known mnemonic `tst` aborts
assembly with the `int()` conversion error - a different error from the
unknown-opcode load error and not a bare-symbol fallback - whereas a token
not starting with a digit stays a bare symbol. -/
theorem c10_int_conversion :
    assemble " tst 12abc".toList = .error (.intConvErr "12abc") ∧
    assemble " tst x2abc".toList
      = .ok { meta_vm := { VM.init with memory := [(Op.tst, [Arg.s "x2abc"])] }
              start := 0 } := by
  decide

/-- Claim C8 is false as stated: a line whose mnemonic is unknown need not
produce the unknown-opcode load error - operand parsing happens first, so
`" foo 12abc"` (unknown mnemonic `foo`) aborts with the `int()` conversion
error carrying only the token, not a load error carrying the line. -/
theorem c8_counterexample :
    assemble " foo 12abc".toList = .error (.intConvErr "12abc") := by
  decide


/-! ### Assembler: label binding and error behavior -/

theorem dictLookup_insert_self (d : List (String × Nat)) (k : String)
    (v : Nat) : dictLookup (dictInsert d k v) k = some v := by
  induction d with
  | nil => simp [dictInsert, dictLookup]
  | cons p rest ih =>
    obtain ⟨k', v'⟩ := p
    by_cases h : k' = k
    · simp [dictInsert, dictLookup, h]
    · simp [dictInsert, dictLookup, h, ih]

theorem dictLookup_insert_ne (d : List (String × Nat)) (k k' : String)
    (v : Nat) (hne : k' ≠ k) :
    dictLookup (dictInsert d k' v) k = dictLookup d k := by
  induction d with
  | nil => simp [dictInsert, dictLookup, hne]
  | cons p rest ih =>
    obtain ⟨ka, va⟩ := p
    by_cases h : ka = k'
    · subst h
      simp [dictInsert, dictLookup, hne]
    · simp only [dictInsert, dictLookup, if_neg h]
      by_cases hk : ka = k
      · simp [dictLookup, hk]
      · simp [dictLookup, hk, ih]

theorem asmLine_blank (st : AsmSt) (line : List Char)
    (h : isBlankLine line = true) : asmLine st line = .ok (.inl st) := by
  simp [asmLine, h]

theorem asmLine_label (st : AsmSt) (line : List Char)
    (h : isLabelLine line = true) :
    asmLine st line = .ok (.inl { st with
      labels := dictInsert st.labels (String.mk (pyStrip line))
        st.memory.length }) := by
  have hb : isBlankLine line = false := by
    cases line with
    | nil => simp [isLabelLine] at h
    | cons c cs =>
      simp only [isLabelLine] at h
      simp only [Bool.not_eq_true'] at h
      simp [isBlankLine, h]
  simp [asmLine, hb, h]

theorem asmLine_inr_eq (st st' : AsmSt) (line : List Char)
    (h : asmLine st line = .ok (.inr st')) : st' = st := by
  by_cases hb : isBlankLine line
  · rw [asmLine_blank st line hb] at h
    simp at h
  · by_cases hl : isLabelLine line
    · rw [asmLine_label st line hl] at h
      simp at h
    · have hb' : isBlankLine line = false := by simpa using hb
      have hl' : isLabelLine line = false := by simpa using hl
      simp only [asmLine, hb', hl', Bool.false_eq_true, if_false] at h
      cases htok : tokenize line with
      | nil =>
        simp only [htok] at h
        simp at h
      | cons opTok argToks =>
        simp only [htok] at h
        cases hargs : parseArgs argToks with
        | error e =>
          simp only [hargs] at h
          simp at h
        | ok args =>
          simp only [hargs] at h
          cases hop : strToOp (String.mk opTok) with
          | some op =>
            simp only [hop] at h
            simp at h
          | none =>
            simp only [hop] at h
            by_cases hadr : String.mk opTok = "adr"
            · rw [if_pos hadr] at h
              cases args with
              | nil => simp at h
              | cons a rest => simp at h
            · rw [if_neg hadr] at h
              by_cases hend : String.mk opTok = "end"
              · rw [if_pos hend] at h
                simp at h
                exact h.symm
              · rw [if_neg hend] at h
                simp at h

theorem asmLine_inl_spec (st st' : AsmSt) (line : List Char)
    (h : asmLine st line = .ok (.inl st')) :
    (∃ t, st'.memory = st.memory ++ t) ∧
    (isLabelLine line = false → st'.labels = st.labels) := by
  by_cases hb : isBlankLine line
  · rw [asmLine_blank st line hb] at h
    simp at h
    subst h
    exact ⟨⟨[], by simp⟩, fun _ => rfl⟩
  · by_cases hl : isLabelLine line
    · rw [asmLine_label st line hl] at h
      simp at h
      subst h
      refine ⟨⟨[], by simp⟩, fun hn => absurd hl (by simp [hn])⟩
    · have hb' : isBlankLine line = false := by simpa using hb
      have hl' : isLabelLine line = false := by simpa using hl
      simp only [asmLine, hb', hl', Bool.false_eq_true, if_false] at h
      cases htok : tokenize line with
      | nil =>
        simp only [htok] at h
        simp at h
      | cons opTok argToks =>
        simp only [htok] at h
        cases hargs : parseArgs argToks with
        | error e =>
          simp only [hargs] at h
          simp at h
        | ok args =>
          simp only [hargs] at h
          cases hop : strToOp (String.mk opTok) with
          | some op =>
            simp only [hop] at h
            simp at h
            subst h
            exact ⟨⟨[(op, args)], rfl⟩, fun _ => rfl⟩
          | none =>
            simp only [hop] at h
            by_cases hadr : String.mk opTok = "adr"
            · rw [if_pos hadr] at h
              cases args with
              | nil => simp at h
              | cons a rest =>
                simp at h
                subst h
                exact ⟨⟨[], by simp⟩, fun _ => rfl⟩
            · rw [if_neg hadr] at h
              by_cases hend : String.mk opTok = "end"
              · rw [if_pos hend] at h
                simp at h
              · rw [if_neg hend] at h
                simp at h

theorem asmLines_preserve (ls : List (List Char)) (st stF : AsmSt) (b : Bool)
    (k : String)
    (hk : ∀ l ∈ ls, isLabelLine l = true → String.mk (pyStrip l) ≠ k)
    (h : asmLines ls st = .ok (stF, b)) :
    dictLookup stF.labels k = dictLookup st.labels k ∧
    ∃ t, stF.memory = st.memory ++ t := by
  induction ls generalizing st with
  | nil =>
    simp only [asmLines] at h
    simp only [Except.ok.injEq, Prod.mk.injEq] at h
    rw [← h.1]
    exact ⟨rfl, ⟨[], by simp⟩⟩
  | cons line rest ih =>
    simp only [asmLines] at h
    cases ha : asmLine st line with
    | error e =>
      rw [ha] at h
      simp at h
    | ok s =>
      rw [ha] at h
      cases s with
      | inr stS =>
        simp only [Except.ok.injEq, Prod.mk.injEq] at h
        have heq := asmLine_inr_eq st stS line ha
        rw [← h.1, heq]
        exact ⟨rfl, ⟨[], by simp⟩⟩
      | inl st' =>
        have hrest := ih st'
          (fun l hl hll => hk l (List.mem_cons_of_mem _ hl) hll) h
        have hstep := asmLine_inl_spec st st' line ha
        constructor
        · rw [hrest.1]
          by_cases hlab : isLabelLine line
          · rw [(by
              rw [asmLine_label st line hlab] at ha
              simp at ha
              rw [← ha] :
              st'.labels = dictInsert st.labels (String.mk (pyStrip line))
                st.memory.length)]
            exact dictLookup_insert_ne _ _ _ _
              (hk line (List.mem_cons_self _ _) hlab)
          · rw [hstep.2 (by simpa using hlab)]
        · obtain ⟨t1, ht1⟩ := hstep.1
          obtain ⟨t2, ht2⟩ := hrest.2
          exact ⟨t1 ++ t2, by rw [ht2, ht1, List.append_assoc]⟩

theorem asmLines_append (xs ys : List (List Char)) (st : AsmSt) :
    asmLines (xs ++ ys) st =
      match asmLines xs st with
      | .ok (st', false) => asmLines ys st'
      | .ok (st', true) => .ok (st', true)
      | .error e => .error e := by
  induction xs generalizing st with
  | nil => simp [asmLines]
  | cons line xs ih =>
    simp only [List.cons_append, asmLines]
    cases ha : asmLine st line with
    | error e => simp
    | ok s =>
      cases s with
      | inr stS => simp
      | inl st' => simpa using ih st'

theorem assemble_ok_state (source : List Char) (m : MetaII) (st : AsmSt)
    (b : Bool)
    (hall : asmLines (splitlines source) asmInit = .ok (st, b))
    (hasm : assemble source = .ok m) :
    m.meta_vm.labels = st.labels ∧ m.meta_vm.memory = st.memory := by
  unfold assemble at hasm
  simp only [hall] at hasm
  cases hstart : st.start with
  | i nn =>
    simp only [hstart, Except.ok.injEq] at hasm
    rw [← hasm]
    exact ⟨rfl, rfl⟩
  | s name =>
    simp only [hstart] at hasm
    cases hdl : dictLookup st.labels name with
    | some nn =>
      simp only [hdl, Except.ok.injEq] at hasm
      rw [← hasm]
      exact ⟨rfl, rfl⟩
    | none =>
      simp only [hdl] at hasm
      simp at hasm

/-- Claim C6: in a successful assembly, each label line (trimmed text) is
bound to the index of the next emitted instruction — the number of
instructions emitted before it, the final memory extending that prefix —
provided no later label line rebinds the same name; and blank or
whitespace-only lines emit nothing and leave the loader state untouched. -/
theorem c6_label_binding :
    (∀ (source : List Char) (pre post : List (List Char)) (lab : List Char)
        (stPre : AsmSt) (m : MetaII),
      splitlines source = pre ++ lab :: post →
      asmLines pre asmInit = .ok (stPre, false) →
      isLabelLine lab = true →
      (∀ l ∈ post, isLabelLine l = true →
        String.mk (pyStrip l) ≠ String.mk (pyStrip lab)) →
      assemble source = .ok m →
      dictLookup m.meta_vm.labels (String.mk (pyStrip lab))
        = some stPre.memory.length ∧
      ∃ t, m.meta_vm.memory = stPre.memory ++ t) ∧
    (∀ (line : List Char) (rest : List (List Char)) (st : AsmSt),
      isBlankLine line = true →
      asmLines (line :: rest) st = asmLines rest st) := by
  constructor
  · intro source pre post lab stPre m hsplit hpre hlab hpost hasm
    have hex : ∃ st b, asmLines (splitlines source) asmInit = .ok (st, b) := by
      unfold assemble at hasm
      cases hall : asmLines (splitlines source) asmInit with
      | error e =>
        rw [hall] at hasm
        simp at hasm
      | ok p =>
        obtain ⟨st0, b0⟩ := p
        exact ⟨st0, b0, rfl⟩
    obtain ⟨st, b, hall⟩ := hex
    have hstate := assemble_ok_state source m st b hall hasm
    rw [hsplit, asmLines_append, hpre] at hall
    have hall2 : asmLines (lab :: post) stPre = .ok (st, b) := hall
    simp only [asmLines] at hall2
    rw [asmLine_label stPre lab hlab] at hall2
    have hall3 : asmLines post
        { stPre with labels := (dictInsert stPre.labels
            (String.mk (pyStrip lab)) stPre.memory.length) }
        = .ok (st, b) := hall2
    have hpres := asmLines_preserve post _ st b (String.mk (pyStrip lab))
      hpost hall3
    constructor
    · rw [hstate.1, hpres.1]
      exact dictLookup_insert_self _ _ _
    · obtain ⟨t, ht⟩ := hpres.2
      exact ⟨t, by rw [hstate.2, ht]⟩
  · intro line rest st h
    simp only [asmLines]
    rw [asmLine_blank st line h]

/-- Witness for C6 at the concrete source `"foo\n tst 'x'"`: the label
`foo` is bound to instruction index 0. -/
theorem c6_witness :
    dictLookup c6prog.meta_vm.labels (String.mk (pyStrip "foo".toList))
      = some asmInit.memory.length ∧
    ∃ t, c6prog.meta_vm.memory = asmInit.memory ++ t := by
  refine c6_label_binding.1 "foo\n tst 'x'".toList [] [" tst 'x'".toList]
    "foo".toList asmInit c6prog (by decide) rfl (by decide)
    ?_ (by decide)
  intro l hl hlab
  simp only [List.mem_singleton] at hl
  subst hl
  exact absurd hlab (by decide)

/-- Claim C8 (amended): a non-blank instruction line whose mnemonic is
unknown (not an opcode, not `adr`, not `end`) and whose operand parses
without an integer-conversion failure aborts assembly with the load error
carrying the mnemonic and the offending line's raw text; and a reached
`end` line stops parsing at once — whatever follows, the loader returns the
state accumulated so far and never touches the remaining lines. -/
theorem c8_amended :
    (∀ (source : List Char) (pre post : List (List Char)) (line : List Char)
        (stPre : AsmSt) (opTok : List Char) (argToks : List (List Char))
        (args : List Arg),
      splitlines source = pre ++ line :: post →
      asmLines pre asmInit = .ok (stPre, false) →
      isBlankLine line = false →
      isLabelLine line = false →
      tokenize line = opTok :: argToks →
      parseArgs argToks = .ok args →
      strToOp (String.mk opTok) = none →
      String.mk opTok ≠ "adr" →
      String.mk opTok ≠ "end" →
      assemble source
        = .error (.badOpcode (String.mk opTok) (String.mk line))) ∧
    (∀ (pre post : List (List Char)) (line : List Char) (st stPre : AsmSt)
        (argToks : List (List Char)) (args : List Arg),
      asmLines pre st = .ok (stPre, false) →
      isBlankLine line = false →
      isLabelLine line = false →
      tokenize line = "end".toList :: argToks →
      parseArgs argToks = .ok args →
      asmLines (pre ++ line :: post) st = .ok (stPre, true)) := by
  constructor
  · intro source pre post line stPre opTok argToks args hsplit hpre hb hl
      htok hargs hop hadr hend
    have hline : asmLine stPre line
        = .error (.badOpcode (String.mk opTok) (String.mk line)) := by
      simp only [asmLine, hb, hl, Bool.false_eq_true, if_false, htok, hargs,
        hop, hadr, hend, ite_false]
    have hfull : asmLines (splitlines source) asmInit
        = .error (.badOpcode (String.mk opTok) (String.mk line)) := by
      rw [hsplit, asmLines_append, hpre]
      show asmLines (line :: post) stPre = _
      simp only [asmLines]
      rw [hline]
    unfold assemble
    rw [hfull]
  · intro pre post line st stPre argToks args hpre hb hl htok hargs
    have hmk : String.mk "end".toList = "end" := rfl
    have hline : asmLine stPre line = .ok (.inr stPre) := by
      simp only [asmLine, hb, hl, Bool.false_eq_true, if_false, htok, hargs,
        hmk, show strToOp "end" = none from rfl,
        if_neg (show ¬(("end" : String) = "adr") by decide),
        if_pos (show ("end" : String) = "end" from rfl), if_true]
    rw [asmLines_append, hpre]
    show asmLines (line :: post) stPre = _
    simp only [asmLines]
    rw [hline]

/-- Witness for C8 (amended) at the concrete source `" foo"`: the unknown
mnemonic `foo` yields the load error with the raw line text. -/
theorem c8_witness :
    assemble " foo".toList
      = .error (.badOpcode (String.mk "foo".toList)
          (String.mk " foo".toList)) := by
  exact c8_amended.1 " foo".toList [] [] " foo".toList asmInit "foo".toList
    [] [] (by decide) rfl (by decide) (by decide) (by decide) rfl rfl
    (by decide) (by decide)

end Meta2
